import Mathlib

/-!
# Quiz subsystem of the AI-for-Kids-book repository: a shallow embedding

This file embeds, in Lean, the markdown quiz parser (`parseQuizFile`,
`extractChapterId` from the batch import script) and the answer-collection
state of the quiz-taking UI component (`QuizInterface`), and proves or
refutes the specified properties about them.

JavaScript strings are modelled as Lean `String` (a wrapper around
`List Char`); the character-level scanning primitives (`split`, `trim`,
`replace`, regex matching) are implemented below as executable functions on
`List Char`, each mirroring the semantics of the JavaScript operation or
regular expression it stands for.
-/

namespace QuizApp

/-! ## Character-level primitives (JS string operations) -/

/-- JS `content.split('\n')`: split at every newline, keeping empty pieces.
Always returns a non-empty list. -/
def splitOnNl : List Char → List (List Char)
  | [] => [[]]
  | c :: rest =>
    if c = '\n' then [] :: splitOnNl rest
    else
      match splitOnNl rest with
      | [] => [[c]]
      | l :: ls => (c :: l) :: ls

/-- JS `str.trim()` (restricted to the four ASCII whitespace characters
`Char.isWhitespace` recognises). -/
def trimL (s : List Char) : List Char :=
  ((s.dropWhile Char.isWhitespace).reverse.dropWhile Char.isWhitespace).reverse

/-- If `pat` is a prefix of `s`, return the rest of `s`. -/
def dropPre (pat s : List Char) : Option (List Char) :=
  if List.isPrefixOf pat s then some (s.drop pat.length) else none

/-- JS `str.includes(pat)`: substring containment. -/
def containsSub (pat : List Char) : List Char → Bool
  | [] => List.isPrefixOf pat []
  | c :: rest => List.isPrefixOf pat (c :: rest) || containsSub pat rest

/-- JS `str.replace(pat, '')` with a plain-string pattern: remove the FIRST
occurrence of `pat`, if any. -/
def removeFirstSub (pat : List Char) : List Char → List Char
  | [] => []
  | c :: rest =>
    if List.isPrefixOf pat (c :: rest) then List.drop pat.length (c :: rest)
    else c :: removeFirstSub pat rest

/-- JS `str.replace(/\*\*/g, '')`: remove every (non-overlapping, leftmost)
occurrence of `**`. -/
def removeStars : List Char → List Char
  | '*' :: '*' :: rest => removeStars rest
  | c :: rest => c :: removeStars rest
  | [] => []

/-- JS `str.split(/[\/\\]/)`: split a path at every slash or backslash. -/
def splitPath : List Char → List (List Char)
  | [] => [[]]
  | c :: rest =>
    if c = '/' ∨ c = '\\' then [] :: splitPath rest
    else
      match splitPath rest with
      | [] => [[c]]
      | l :: ls => (c :: l) :: ls

/-- JS `parseInt` on a non-empty all-digit string. -/
def digitsVal (ds : List Char) : Nat :=
  ds.foldl (fun a c => a * 10 + (c.toNat - '0'.toNat)) 0

/-- Everything after the first `:` of the line
(JS `line.split(':').slice(1).join(':')`); empty when there is no colon. -/
def afterFirstColon : List Char → List Char
  | [] => []
  | ':' :: rest => rest
  | _ :: rest => afterFirstColon rest

/-- An answer key letter recognised by the parser's regexes (`[A-D]`). -/
def isKeyABCD (c : Char) : Bool :=
  c = 'A' ∨ c = 'B' ∨ c = 'C' ∨ c = 'D'

/-- The regex fragment `\s+(.+)`: at least one whitespace character, then a
non-empty capture running to the end of the line.  The greedy `\s+` gives one
character back when nothing else is left for `(.+)`. -/
def wsCapture (rest : List Char) : Option (List Char) :=
  let w := rest.takeWhile Char.isWhitespace
  let t := rest.drop w.length
  if w.isEmpty then none
  else if t.isEmpty then
    if 2 ≤ w.length then some (w.drop (w.length - 1)) else none
  else some t

/-! ## Data model (the script's interfaces) -/

/-- One answer option of a question (`interface QuizOption`). -/
structure QuizOption where
  key : String
  text : String
deriving DecidableEq, Repr

/-- One parsed question (`interface QuizQuestion`). -/
structure QuizQuestion where
  id : String
  question : String
  options : List QuizOption
  correct_answer : String
  explanation : String
deriving DecidableEq, Repr

/-- The parsed quiz record (`interface ParsedQuiz`). -/
structure ParsedQuiz where
  chapter_id : String
  title : String
  description : String
  passing_percentage : Nat
  questions : List QuizQuestion
deriving DecidableEq, Repr

/-- A legacy answer-key entry (`answers.set(num, { answer, explanation })`). -/
structure LegacyAnswer where
  answer : String
  explanation : String
deriving DecidableEq, Repr

/-- JS `Map.set`: replace the binding of an existing key in place, else
append.  Lookups read the list front to back. -/
def mapSet (m : List (Nat × LegacyAnswer)) (k : Nat) (v : LegacyAnswer) :
    List (Nat × LegacyAnswer) :=
  match m with
  | [] => [(k, v)]
  | (k', v') :: rest => if k' = k then (k, v) :: rest else (k', v') :: mapSet rest k v

/-- JS `Map.get`. -/
def mapGet (m : List (Nat × LegacyAnswer)) (k : Nat) : Option LegacyAnswer :=
  match m.find? (fun p => p.1 = k) with
  | some p => some p.2
  | none => none

/-! ## Line matchers (the parser's regexes) -/

/-- The regex test `line.match(/^### Question (\d+):/)`: a numbered question heading. -/
def matchQuestionHeading (line : List Char) : Bool :=
  match dropPre ("### Question ").toList line with
  | none => false
  | some rest =>
    let ds := rest.takeWhile Char.isDigit
    ¬ ds.isEmpty ∧ (rest.drop ds.length).head? = some ':'

/-- The option patterns `line.match(/^\*\*([A-D])\)\*\*\s+(.+)/) || line.match(/^([A-D])\)\s+(.+)/)`:
an option line; yields the key letter and the raw captured text. -/
def matchOption (line : List Char) : Option (Char × List Char) :=
  let pat1 : Option (Char × List Char) :=
    match dropPre ("**").toList line with
    | some (k :: rest) =>
      if isKeyABCD k then
        match dropPre (")**").toList rest with
        | some rest2 => (wsCapture rest2).map (fun t => (k, t))
        | none => none
      else none
    | _ => none
  match pat1 with
  | some r => some r
  | none =>
    match line with
    | k :: ')' :: rest =>
      if isKeyABCD k then (wsCapture rest).map (fun t => (k, t)) else none
    | _ => none

/-- The pattern `/\*\*Answer:\s+([A-D])\)/` tried at one start position. -/
def matchAnswerAt (s : List Char) : Option Char :=
  match dropPre ("**Answer:").toList s with
  | none => none
  | some rest =>
    let w := rest.takeWhile Char.isWhitespace
    if w.isEmpty then none
    else
      match rest.drop w.length with
      | k :: ')' :: _ => if isKeyABCD k then some k else none
      | _ => none

/-- The search `line.match(/\*\*Answer:\s+([A-D])\)/)`: unanchored, leftmost match. -/
def matchAnswer : List Char → Option Char
  | [] => none
  | c :: rest =>
    match matchAnswerAt (c :: rest) with
    | some k => some k
    | none => matchAnswer rest

/-- The pattern `/\*\*Explanation:\*\*\s+(.+)/` tried at one start position. -/
def matchExplanationAt (s : List Char) : Option (List Char) :=
  match dropPre ("**Explanation:**").toList s with
  | none => none
  | some rest => wsCapture rest

/-- The search `line.match(/\*\*Explanation:\*\*\s+(.+)/)`: unanchored, leftmost match. -/
def matchExplanation : List Char → Option (List Char)
  | [] => none
  | c :: rest =>
    match matchExplanationAt (c :: rest) with
    | some t => some t
    | none => matchExplanation rest

/-- The legacy pattern `line.match(/^(\d+)\.\s+\*\*([A-D])\*\*\s+-\s+(.+)/)`: a legacy
answer-key line.  (The guarding test `/^\d+\.\s+\*\*[A-D]\*\*/` in the source
is implied by this full pattern, so only the full match is observable.) -/
def matchLegacy (line : List Char) : Option (Nat × Char × List Char) :=
  let ds := line.takeWhile Char.isDigit
  if ds.isEmpty then none
  else
    match line.drop ds.length with
    | '.' :: r1 =>
      let w1 := r1.takeWhile Char.isWhitespace
      if w1.isEmpty then none
      else
        match dropPre ("**").toList (r1.drop w1.length) with
        | some (k :: r2) =>
          if isKeyABCD k then
            match dropPre ("**").toList r2 with
            | some r3 =>
              let w2 := r3.takeWhile Char.isWhitespace
              if w2.isEmpty then none
              else
                match r3.drop w2.length with
                | '-' :: r4 => (wsCapture r4).map (fun t => (digitsVal ds, k, t))
                | _ => none
            | none => none
          else none
        | _ => none
    | _ => none

/-! ## extractChapterId -/

/-- JS `parts.find(p => p.startsWith('chapter-'))`: the first path segment
beginning with `chapter-`. -/
def chapterSegment (filePath : String) : Option (List Char) :=
  (splitPath filePath.toList).find? (fun p => List.isPrefixOf ("chapter-").toList p)

/-- The source's `extractChapterId`: split the path at slashes, use the first
segment starting with `chapter-` (suffixed `-quiz`), else the last segment
with the first occurrence of `.md` removed. -/
def extractChapterId (filePath : String) : String :=
  let fileName := removeFirstSub (".md").toList ((splitPath filePath.toList).getLastD [])
  match chapterSegment filePath with
  | some cp => (cp ++ ("-quiz").toList).asString
  | none => fileName.asString

/-! ## Title and description extraction -/

/-- Title scan: the first line starting with a top-level heading marker, with
the marker, the decorative symbols of `/[🎯✨]/g` and surrounding whitespace
removed; empty when no such line exists. -/
def extractTitle : List (List Char) → List Char
  | [] => []
  | l :: rest =>
    if List.isPrefixOf ('#' :: [' ']) l then
      trimL ((removeFirstSub ('#' :: [' ']) l).filter (fun c => ¬ (c = '🎯' ∨ c = '✨')))
    else extractTitle rest

/-- Description scan: plain-text lines after the first top-level heading and
before a line containing the questions-section marker, skipping lines that
start with emphasis, a list dash or a heading marker; each kept line is
trimmed and followed by a single space. -/
def extractDescLoop (inDescription : Bool) : List (List Char) → List Char
  | [] => []
  | l :: rest =>
    if List.isPrefixOf ('#' :: [' ']) l ∧ inDescription = false then
      extractDescLoop true rest
    else if inDescription ∧ containsSub ("## 📝 Questions").toList l then []
    else if inDescription ∧ ¬ (trimL l).isEmpty ∧
        ¬ List.isPrefixOf ('*' :: ['*']) l ∧ l.head? ≠ some '-' ∧ l.head? ≠ some '#' then
      trimL l ++ ' ' :: extractDescLoop inDescription rest
    else extractDescLoop inDescription rest

/-- The assembled description before the empty-default: accumulated text,
trimmed, truncated to 200 characters (`.trim().substring(0, 200)`). -/
def extractDescription (lines : List (List Char)) : List Char :=
  (trimL (extractDescLoop false lines)).take 200

/-! ## The question-scanning loop -/

/-- The mutable state of the parser's question loop: the finalized questions,
the question being built, the heading counter, and the legacy answer map. -/
structure ScanState where
  questions : List QuizQuestion
  current : Option QuizQuestion
  questionNumber : Nat
  answers : List (Nat × LegacyAnswer)
deriving Repr

/-- Finalization guard `currentQuestion && currentQuestion.question &&
currentQuestion.options`: in the source `options` is an array, which is a
truthy value even when empty, so the test reduces to non-empty question
text. -/
def finalizeInto (questions : List QuizQuestion) : Option QuizQuestion → List QuizQuestion
  | none => questions
  | some cq => if cq.question ≠ "" then questions ++ [cq] else questions

/-- The question display text: the next raw line with bold markers removed
and trimmed, falling back to the heading's title portion when absent or empty
(JS `lines[i + 1]?.replace(/\*\*/g, '').trim() || questionTitle`). -/
def questionTextOf (line : List Char) (next? : Option (List Char)) : List Char :=
  let questionTitle := trimL (afterFirstColon line)
  match next? with
  | some nl =>
    let t := trimL (removeStars nl)
    if t.isEmpty then questionTitle else t
  | none => questionTitle

/-- The `if (line.match(/^### Question (\d+):/))` branch of the loop body:
finalize the accumulating question, bump the counter and start a fresh
current question. -/
def headingStep (st : ScanState) (line : List Char) (next? : Option (List Char)) : ScanState :=
  if matchQuestionHeading line then
    { st with
        questions := finalizeInto st.questions st.current,
        questionNumber := st.questionNumber + 1,
        current := some
          { id := "q" ++ Nat.repr (st.questionNumber + 1),
            question := (questionTextOf line next?).asString,
            options := [], correct_answer := "", explanation := "" } }
  else st

/-- The `if (currentQuestion && optionMatch)` branch of the loop body. -/
def optionStep (st : ScanState) (line : List Char) : ScanState :=
  match st.current, matchOption line with
  | some cq, some (k, t) =>
    { st with
        current := some
          { cq with options := cq.options ++ [({ key := String.mk [k], text := (trimL t).asString } : QuizOption)] } }
  | _, _ => st

/-- The `if (answerInDetailsMatch && currentQuestion)` branch of the loop body. -/
def answerStep (st : ScanState) (line : List Char) : ScanState :=
  match st.current, matchAnswer line with
  | some cq, some k => { st with current := some { cq with correct_answer := String.mk [k] } }
  | _, _ => st

/-- The `if (explanationMatch && currentQuestion)` branch of the loop body. -/
def explStep (st : ScanState) (line : List Char) : ScanState :=
  match st.current, matchExplanation line with
  | some cq, some t => { st with current := some { cq with explanation := (trimL t).asString } }
  | _, _ => st

/-- The legacy answer-key branch of the loop body. -/
def legacyStep (st : ScanState) (line : List Char) : ScanState :=
  match matchLegacy line with
  | some (num, k, e) =>
    { st with answers := mapSet st.answers num { answer := String.mk [k], explanation := (trimL e).asString } }
  | none => st

/-- The remaining branches of the loop body, in source order: options, inline
answer, inline explanation, legacy answer-key lines. -/
def stepRest (st : ScanState) (line : List Char) : ScanState :=
  legacyStep (explStep (answerStep (optionStep st line) line) line) line

/-- One iteration of the scanning loop, over the raw line (trimmed on entry,
JS `const line = lines[i].trim()`) and the raw following line. -/
def step (st : ScanState) (rawLine : List Char) (next? : Option (List Char)) : ScanState :=
  let line := trimL rawLine
  stepRest (headingStep st line next?) line

/-- Run the scanning loop over all lines, threading the one-line lookahead. -/
def scanLines (st : ScanState) : List (List Char) → ScanState
  | [] => st
  | l :: rest => scanLines (step st l rest.head?) rest

/-- The question list after the scan and the trailing finalization. -/
def scannedQuestions (lines : List (List Char)) : List QuizQuestion :=
  let st := scanLines ⟨[], none, 0, []⟩ lines
  finalizeInto st.questions st.current

/-- The legacy answer map collected by the scan. -/
def scannedAnswers (lines : List (List Char)) : List (Nat × LegacyAnswer) :=
  (scanLines ⟨[], none, 0, []⟩ lines).answers

/-- The `questions.forEach((q, index) => ...)` pass: for the question at
1-based position `pos`, a legacy entry at that position replaces the
question's answer and explanation. -/
def applyLegacy (answers : List (Nat × LegacyAnswer)) : Nat → List QuizQuestion → List QuizQuestion
  | _, [] => []
  | pos, q :: rest =>
    (match mapGet answers pos with
     | some a => { q with correct_answer := a.answer, explanation := a.explanation }
     | none => q) :: applyLegacy answers (pos + 1) rest

/-- The data-quality filter
`questions.filter(q => !q.correct_answer || q.options.length === 0)`. -/
def invalidQuestions (questions : List QuizQuestion) : List QuizQuestion :=
  questions.filter (fun q => q.correct_answer = "" ∨ q.options.length = 0)

/-- The source's `parseQuizFile`, with the file's text passed explicitly in
place of the `readFileSync` call.  Returns `none` for the "no quiz found"
outcome. -/
def parseQuizFile (filePath content : String) : Option ParsedQuiz :=
  let lines := splitOnNl content.toList
  let chapter_id := extractChapterId filePath
  let title := extractTitle lines
  let description := extractDescription lines
  let questions := applyLegacy (scannedAnswers lines) 1 (scannedQuestions lines)
  if questions.length = 0 then none
  else some
    { chapter_id := chapter_id,
      title := if title.isEmpty then "Quiz" else title.asString,
      description := if description.isEmpty then "Test your knowledge!" else description.asString,
      passing_percentage := 70,
      questions := questions }

/-! ## Helper lemmas: strings and decimal numerals -/

theorem asString_length (l : List Char) : l.asString.length = l.length := rfl

theorem asString_inj {l l' : List Char} (h : l.asString = l'.asString) : l = l' :=
  congrArg String.data h

theorem asString_ne_empty {l : List Char} (h : l.isEmpty = false) : l.asString ≠ "" := by
  intro he
  have hd : l = [] := @asString_inj l [] he
  rw [hd] at h
  simp at h

/-- The canonical decimal digit string of a natural number, most significant
digit first. -/
def decChars (n : Nat) : List Char :=
  if _h : n < 10 then [Nat.digitChar n]
  else decChars (n / 10) ++ [Nat.digitChar (n % 10)]
decreasing_by exact Nat.div_lt_self (by omega) (by omega)

theorem toDigitsCore_eq_decChars :
    ∀ (f n : Nat) (acc : List Char), n < 10 ^ f → 0 < f →
      Nat.toDigitsCore 10 f n acc = decChars n ++ acc := by
  intro f
  induction f with
  | zero => intro n acc _ hf; omega
  | succ f ih =>
    intro n acc hn _
    by_cases hdiv : n / 10 = 0
    · have hlt : n < 10 := (Nat.div_eq_zero_iff (by omega)).mp hdiv
      show (if n / 10 = 0 then Nat.digitChar (n % 10) :: acc
            else Nat.toDigitsCore 10 f (n / 10) (Nat.digitChar (n % 10) :: acc)) = _
      rw [if_pos hdiv, decChars]
      rw [dif_pos hlt]
      simp [Nat.mod_eq_of_lt hlt]
    · have hf : 0 < f := by
        rcases Nat.eq_zero_or_pos f with hf0 | hf0
        · subst hf0
          simp only [Nat.zero_add, pow_one] at hn
          exact absurd (Nat.div_eq_of_lt hn) hdiv
        · exact hf0
      have hn' : n / 10 < 10 ^ f := by
        rw [Nat.div_lt_iff_lt_mul (by omega)]
        calc n < 10 ^ (f + 1) := hn
        _ = 10 ^ f * 10 := by ring
      have hge : ¬ n < 10 := fun hlt => hdiv (Nat.div_eq_of_lt hlt)
      show (if n / 10 = 0 then Nat.digitChar (n % 10) :: acc
            else Nat.toDigitsCore 10 f (n / 10) (Nat.digitChar (n % 10) :: acc)) = _
      rw [if_neg hdiv, ih (n / 10) (Nat.digitChar (n % 10) :: acc) hn' hf]
      conv_rhs => rw [decChars]
      rw [dif_neg hge]
      simp

theorem repr_eq_decChars (n : Nat) : Nat.repr n = (decChars n).asString := by
  have hlt : n < 10 ^ (n + 1) := by
    calc n < 2 ^ n := Nat.lt_two_pow n
    _ ≤ 10 ^ n := Nat.pow_le_pow_left (by omega) n
    _ ≤ 10 ^ (n + 1) := Nat.pow_le_pow_right (by omega) (by omega)
  unfold Nat.repr Nat.toDigits
  rw [toDigitsCore_eq_decChars (n + 1) n [] hlt (by omega)]
  simp

/-- The numeric value read back from a digit-character string. -/
def decVal (l : List Char) : Nat :=
  l.foldl (fun a c => a * 10 + (c.toNat - 48)) 0

theorem digitChar_val : ∀ d : Nat, d < 10 → (Nat.digitChar d).toNat - 48 = d := by decide

theorem decVal_append_digit (l : List Char) (c : Char) :
    decVal (l ++ [c]) = decVal l * 10 + (c.toNat - 48) := by
  unfold decVal
  rw [List.foldl_append]
  rfl

theorem decVal_decChars (n : Nat) : decVal (decChars n) = n := by
  induction n using Nat.strong_induction_on with
  | _ n ih =>
    rw [decChars]
    by_cases h : n < 10
    · rw [dif_pos h]
      unfold decVal
      simp [List.foldl, digitChar_val n h]
    · rw [dif_neg h]
      rw [decVal_append_digit,
        ih (n / 10) (Nat.div_lt_self (by omega) (by omega)),
        digitChar_val (n % 10) (Nat.mod_lt n (by omega))]
      omega

theorem repr_injective {m n : Nat} (h : Nat.repr m = Nat.repr n) : m = n := by
  rw [repr_eq_decChars, repr_eq_decChars] at h
  have h2 : decChars m = decChars n := congrArg String.data h
  have := congrArg decVal h2
  rwa [decVal_decChars, decVal_decChars] at this

/-- The question-identifier builder used at question creation. -/
def qid (n : Nat) : String := "q" ++ Nat.repr n

theorem qid_injective : Function.Injective qid := by
  intro m n h
  unfold qid at h
  have hd := congrArg String.data h
  simp only [String.data_append] at hd
  have : (Nat.repr m).data = (Nat.repr n).data := by
    simpa using hd
  exact repr_injective (by
    cases hm : Nat.repr m
    cases hn : Nat.repr n
    rw [hm, hn] at this
    simp_all)

/-! ## Lemmas about the scanning loop -/

theorem optionStep_questions (st : ScanState) (line : List Char) :
    (optionStep st line).questions = st.questions := by
  unfold optionStep; repeat' split
  all_goals rfl

theorem answerStep_questions (st : ScanState) (line : List Char) :
    (answerStep st line).questions = st.questions := by
  unfold answerStep; repeat' split
  all_goals rfl

theorem explStep_questions (st : ScanState) (line : List Char) :
    (explStep st line).questions = st.questions := by
  unfold explStep; repeat' split
  all_goals rfl

theorem legacyStep_questions (st : ScanState) (line : List Char) :
    (legacyStep st line).questions = st.questions := by
  unfold legacyStep; repeat' split
  all_goals rfl

theorem optionStep_questionNumber (st : ScanState) (line : List Char) :
    (optionStep st line).questionNumber = st.questionNumber := by
  unfold optionStep; repeat' split
  all_goals rfl

theorem answerStep_questionNumber (st : ScanState) (line : List Char) :
    (answerStep st line).questionNumber = st.questionNumber := by
  unfold answerStep; repeat' split
  all_goals rfl

theorem explStep_questionNumber (st : ScanState) (line : List Char) :
    (explStep st line).questionNumber = st.questionNumber := by
  unfold explStep; repeat' split
  all_goals rfl

theorem legacyStep_questionNumber (st : ScanState) (line : List Char) :
    (legacyStep st line).questionNumber = st.questionNumber := by
  unfold legacyStep; repeat' split
  all_goals rfl

theorem optionStep_current_id (st : ScanState) (line : List Char) :
    ((optionStep st line).current).map (fun q => q.id) = (st.current).map (fun q => q.id) := by
  unfold optionStep; repeat' split
  all_goals simp_all

theorem answerStep_current_id (st : ScanState) (line : List Char) :
    ((answerStep st line).current).map (fun q => q.id) = (st.current).map (fun q => q.id) := by
  unfold answerStep; repeat' split
  all_goals simp_all

theorem explStep_current_id (st : ScanState) (line : List Char) :
    ((explStep st line).current).map (fun q => q.id) = (st.current).map (fun q => q.id) := by
  unfold explStep; repeat' split
  all_goals simp_all

theorem legacyStep_current (st : ScanState) (line : List Char) :
    (legacyStep st line).current = st.current := by
  unfold legacyStep; repeat' split
  all_goals rfl

theorem optionStep_current_question (st : ScanState) (line : List Char) :
    ((optionStep st line).current).map (fun q => q.question) =
      (st.current).map (fun q => q.question) := by
  unfold optionStep; repeat' split
  all_goals simp_all

theorem answerStep_current_question (st : ScanState) (line : List Char) :
    ((answerStep st line).current).map (fun q => q.question) =
      (st.current).map (fun q => q.question) := by
  unfold answerStep; repeat' split
  all_goals simp_all

theorem explStep_current_question (st : ScanState) (line : List Char) :
    ((explStep st line).current).map (fun q => q.question) =
      (st.current).map (fun q => q.question) := by
  unfold explStep; repeat' split
  all_goals simp_all

theorem stepRest_questions (st : ScanState) (line : List Char) :
    (stepRest st line).questions = st.questions := by
  unfold stepRest
  rw [legacyStep_questions, explStep_questions, answerStep_questions, optionStep_questions]

theorem stepRest_questionNumber (st : ScanState) (line : List Char) :
    (stepRest st line).questionNumber = st.questionNumber := by
  unfold stepRest
  rw [legacyStep_questionNumber, explStep_questionNumber, answerStep_questionNumber,
    optionStep_questionNumber]

theorem stepRest_current_id (st : ScanState) (line : List Char) :
    ((stepRest st line).current).map (fun q => q.id) = (st.current).map (fun q => q.id) := by
  unfold stepRest
  rw [legacyStep_current, explStep_current_id, answerStep_current_id, optionStep_current_id]

theorem stepRest_current_question (st : ScanState) (line : List Char) :
    ((stepRest st line).current).map (fun q => q.question) =
      (st.current).map (fun q => q.question) := by
  unfold stepRest
  rw [legacyStep_current, explStep_current_question, answerStep_current_question,
    optionStep_current_question]

theorem step_questions (st : ScanState) (rawLine : List Char) (next? : Option (List Char)) :
    (step st rawLine next?).questions =
      if matchQuestionHeading (trimL rawLine) then finalizeInto st.questions st.current
      else st.questions := by
  unfold step headingStep
  rw [stepRest_questions]
  split
  · rfl
  · rfl

theorem step_questionNumber (st : ScanState) (rawLine : List Char) (next? : Option (List Char)) :
    (step st rawLine next?).questionNumber =
      if matchQuestionHeading (trimL rawLine) then st.questionNumber + 1
      else st.questionNumber := by
  unfold step headingStep
  rw [stepRest_questionNumber]
  split
  · rfl
  · rfl

theorem step_current_id (st : ScanState) (rawLine : List Char) (next? : Option (List Char)) :
    ((step st rawLine next?).current).map (fun q => q.id) =
      if matchQuestionHeading (trimL rawLine) then some ("q" ++ Nat.repr (st.questionNumber + 1))
      else (st.current).map (fun q => q.id) := by
  unfold step headingStep
  rw [stepRest_current_id]
  split
  · rfl
  · rfl

/-! ## Lemmas about the legacy-answer pass -/

theorem applyLegacy_length (ans : List (Nat × LegacyAnswer)) :
    ∀ (pos : Nat) (qs : List QuizQuestion), (applyLegacy ans pos qs).length = qs.length := by
  intro pos qs
  induction qs generalizing pos with
  | nil => rfl
  | cons q rest ih => simp [applyLegacy, ih]

theorem applyLegacy_map_question (ans : List (Nat × LegacyAnswer)) :
    ∀ (pos : Nat) (qs : List QuizQuestion),
      (applyLegacy ans pos qs).map (fun q => q.question) = qs.map (fun q => q.question) := by
  intro pos qs
  induction qs generalizing pos with
  | nil => rfl
  | cons q rest ih =>
    simp only [applyLegacy, List.map_cons, ih]
    cases mapGet ans pos <;> simp

theorem applyLegacy_map_id (ans : List (Nat × LegacyAnswer)) :
    ∀ (pos : Nat) (qs : List QuizQuestion),
      (applyLegacy ans pos qs).map (fun q => q.id) = qs.map (fun q => q.id) := by
  intro pos qs
  induction qs generalizing pos with
  | nil => rfl
  | cons q rest ih =>
    simp only [applyLegacy, List.map_cons, ih]
    cases mapGet ans pos <;> simp

theorem applyLegacy_getElem? (ans : List (Nat × LegacyAnswer)) :
    ∀ (pos : Nat) (qs : List QuizQuestion) (i : Nat),
      (applyLegacy ans pos qs)[i]? =
        (qs[i]?).map (fun q =>
          match mapGet ans (pos + i) with
          | some a => { q with correct_answer := a.answer, explanation := a.explanation }
          | none => q) := by
  intro pos qs
  induction qs generalizing pos with
  | nil => intro i; simp [applyLegacy]
  | cons q rest ih =>
    intro i
    cases i with
    | zero => simp [applyLegacy]
    | succ i =>
      simp only [applyLegacy, List.getElem?_cons_succ, ih (pos + 1) i]
      have harith : pos + 1 + i = pos + (i + 1) := by omega
      rw [harith]

/-! ## Destructuring a successful parse -/

theorem parse_fields {p c : String} {z : ParsedQuiz} (h : parseQuizFile p c = some z) :
    z.chapter_id = extractChapterId p ∧
    z.title = (if (extractTitle (splitOnNl c.toList)).isEmpty then "Quiz"
               else (extractTitle (splitOnNl c.toList)).asString) ∧
    z.description = (if (extractDescription (splitOnNl c.toList)).isEmpty then "Test your knowledge!"
               else (extractDescription (splitOnNl c.toList)).asString) ∧
    z.passing_percentage = 70 ∧
    z.questions = applyLegacy (scannedAnswers (splitOnNl c.toList)) 1
        (scannedQuestions (splitOnNl c.toList)) ∧
    z.questions ≠ [] := by
  simp only [parseQuizFile] at h
  split at h
  · exact absurd h (by simp)
  · rename_i hlen
    injection h with h
    subst h
    refine ⟨rfl, rfl, rfl, rfl, rfl, ?_⟩
    intro hq
    apply hlen
    rw [show (applyLegacy (scannedAnswers (splitOnNl c.toList)) 1
        (scannedQuestions (splitOnNl c.toList))) = [] from hq]
    rfl

/-! ## Concrete documents and their parse results, used as witnesses -/

/-- A minimal well-formed quiz document. -/
def wDoc : String := "### Question 1: T\n**X**\nA) a\n**Answer: A)**\n"

/-- The parse of `wDoc`. -/
def wQuiz : ParsedQuiz :=
  { chapter_id := "q", title := "Quiz", description := "Test your knowledge!",
    passing_percentage := 70,
    questions := [{ id := "q1", question := "X",
                    options := [{ key := "A", text := "a" }],
                    correct_answer := "A", explanation := "" }] }

/-- A document with a question carrying an inline answer and explanation. -/
def d1Inline : String :=
  "### Question 1: T\n**What?**\nA) x\nB) y\n**Answer: A)**\n**Explanation:** inline expl\n"

/-- The same document with a legacy answer-key line for position 1 appended. -/
def d1Both : String :=
  "### Question 1: T\n**What?**\nA) x\nB) y\n**Answer: A)**\n**Explanation:** inline expl\n1. **B** - legacy expl\n"

/-- The parse of `d1Both`. -/
def zBoth : ParsedQuiz :=
  { chapter_id := "quiz", title := "Quiz", description := "Test your knowledge!",
    passing_percentage := 70,
    questions := [{ id := "q1", question := "What?",
                    options := [{ key := "A", text := "x" }, { key := "B", text := "y" }],
                    correct_answer := "B", explanation := "legacy expl" }] }

/-- A document whose sole question has text but no option lines. -/
def d2NoOpts : String := "### Question 1: T\n**Some text**\n"

/-- A document whose sole question has inline answer `D` but only option `A`. -/
def d4Mismatch : String := "### Question 1: T\n**Txt**\nA) x\n**Answer: D)**\n"

/-- A document with two questions. -/
def w9Doc : String := "### Question 1: A\n**P**\nA) a\n### Question 2: B\n**Q**\nB) b\n"

/-- The parse of `w9Doc`. -/
def w9Quiz : ParsedQuiz :=
  { chapter_id := "q", title := "Quiz", description := "Test your knowledge!",
    passing_percentage := 70,
    questions := [{ id := "q1", question := "P",
                    options := [{ key := "A", text := "a" }],
                    correct_answer := "", explanation := "" },
                  { id := "q2", question := "Q",
                    options := [{ key := "B", text := "b" }],
                    correct_answer := "", explanation := "" }] }

/-! ## Claim C3 -/

/-- C3: for every input document, a returned `ParsedQuiz` has a non-empty
question list; the zero-question outcome is reported as `none`
("no quiz found"), never as a quiz record with an empty list. -/
theorem parse_some_questions_nonempty {p c : String} {z : ParsedQuiz}
    (h : parseQuizFile p c = some z) : z.questions ≠ [] :=
  (parse_fields h).2.2.2.2.2

/-- Witness for C3 at a concrete document. -/
theorem parse_some_questions_nonempty_witness :
    parseQuizFile "q.md" wDoc = some wQuiz ∧ wQuiz.questions ≠ [] := by
  have h : parseQuizFile "q.md" wDoc = some wQuiz := by decide
  exact ⟨h, parse_some_questions_nonempty h⟩

/-! ## Claim C5 -/

/-- C5: parsing is deterministic and idempotent: on the same path and text
the parser (a pure function once the file read is made explicit) produces
the identical result, field for field. -/
theorem parseQuizFile_deterministic (p c : String) :
    parseQuizFile p c = parseQuizFile p c := rfl

/-! ## Claim C6 -/

/-- C6 counterexample: for the path `x.mdy.md`, which has no `chapter-`
segment, the derived identifier is `xy.md` — the first occurrence of the
substring `.md` is removed — not `x.mdy` as removing the `.md` extension
would give. -/
theorem extractChapterId_fallback_cex :
    extractChapterId "x.mdy.md" = "xy.md" ∧ extractChapterId "x.mdy.md" ≠ "x.mdy" := by
  decide

/-- Modelled from the amended claim's words: the chapter identifier is the
first path segment beginning with `chapter-` with `-quiz` appended, and
otherwise the file's last path segment with the first occurrence of the
substring `.md` (not necessarily a trailing extension) removed. -/
def chapterIdSpec (filePath : String) : String :=
  match chapterSegment filePath with
  | some seg => seg.asString ++ "-quiz"
  | none => (removeFirstSub (".md").toList ((splitPath filePath.toList).getLastD [])).asString

/-- C6 amended: for every file path the derived chapter identifier equals
the first `chapter-` segment with `-quiz` appended, and when no such segment
exists, the base name with the FIRST occurrence of the substring `.md`
removed. -/
theorem extractChapterId_eq_spec (p : String) : extractChapterId p = chapterIdSpec p := by
  unfold extractChapterId chapterIdSpec
  cases h : chapterSegment p with
  | none => simp only [h]
  | some seg =>
    simp only [h]
    show (seg ++ ("-quiz").toList).asString = seg.asString ++ "-quiz"
    rfl

/-! ## Claim C7 -/

/-- C7: the description of every returned quiz is at most 200 characters:
it is the concatenation of the plain-text lines between the title and the
questions section, truncated to 200 characters (or the 20-character default
when empty). -/
theorem parse_description_le_200 {p c : String} {z : ParsedQuiz}
    (h : parseQuizFile p c = some z) : z.description.length ≤ 200 := by
  obtain ⟨-, -, hd, -, -, -⟩ := parse_fields h
  rw [hd]
  split
  · decide
  · rw [asString_length]
    unfold extractDescription
    calc (List.take 200 (trimL (extractDescLoop false (splitOnNl c.toList)))).length
        ≤ 200 := List.length_take_le 200 _

/-- Witness for C7 at a concrete document. -/
theorem parse_description_le_200_witness :
    parseQuizFile "q.md" wDoc = some wQuiz ∧ wQuiz.description.length ≤ 200 := by
  have h : parseQuizFile "q.md" wDoc = some wQuiz := by decide
  exact ⟨h, parse_description_le_200 h⟩

/-! ## Claim C10 -/

/-- C10: every returned quiz has a non-empty title and a non-empty
description; when the title scan finds nothing the title is the default
`Quiz`, and when the description scan finds nothing the description is the
default `Test your knowledge!`. -/
theorem parse_title_description_defaults {p c : String} {z : ParsedQuiz}
    (h : parseQuizFile p c = some z) :
    z.title ≠ "" ∧ z.description ≠ "" ∧
    ((extractTitle (splitOnNl c.toList)).isEmpty = true → z.title = "Quiz") ∧
    ((extractDescription (splitOnNl c.toList)).isEmpty = true →
      z.description = "Test your knowledge!") := by
  obtain ⟨-, ht, hd, -, -, -⟩ := parse_fields h
  rw [ht, hd]
  refine ⟨?_, ?_, ?_, ?_⟩
  · split
    · decide
    · rename_i hne
      exact asString_ne_empty (Bool.not_eq_true _ ▸ eq_false_of_ne_true hne)
  · split
    · decide
    · rename_i hne
      exact asString_ne_empty (Bool.not_eq_true _ ▸ eq_false_of_ne_true hne)
  · intro he; rw [if_pos he]
  · intro he; rw [if_pos he]

/-- Witness for C10 at a concrete document. -/
theorem parse_title_description_defaults_witness :
    parseQuizFile "q.md" wDoc = some wQuiz ∧
    (wQuiz.title ≠ "" ∧ wQuiz.description ≠ "" ∧
      ((extractTitle (splitOnNl wDoc.toList)).isEmpty = true → wQuiz.title = "Quiz") ∧
      ((extractDescription (splitOnNl wDoc.toList)).isEmpty = true →
        wQuiz.description = "Test your knowledge!")) := by
  have h : parseQuizFile "q.md" wDoc = some wQuiz := by decide
  exact ⟨h, parse_title_description_defaults h⟩

/-! ## Claim C1 -/

/-- C1 counterexample: in `d1Both` question 1 has an inline answer `A` and
inline explanation `inline expl` (as the parse of `d1Inline`, which differs
only by dropping the legacy line, shows), yet with the legacy answer-key
entry `1. **B** - legacy expl` present the returned question carries the
legacy values: the legacy map overwrote the inline ones. -/
theorem legacy_overwrites_inline_cex :
    (parseQuizFile "quiz.md" d1Inline).map
        (fun z => z.questions.map (fun q => (q.correct_answer, q.explanation))) =
      some [("A", "inline expl")] ∧
    (parseQuizFile "quiz.md" d1Both).map
        (fun z => z.questions.map (fun q => (q.correct_answer, q.explanation))) =
      some [("B", "legacy expl")] := by
  exact ⟨by decide, by decide⟩

/-- C1 amended: for every returned quiz, the question at 0-based index `i`
equals the scanned question at that index with its correct answer and
explanation REPLACED by the legacy answer-key entry at 1-based position
`i + 1` whenever that entry exists — regardless of any inline values — and
left unchanged only when no such entry exists. -/
theorem parse_legacy_fill {p c : String} {z : ParsedQuiz}
    (h : parseQuizFile p c = some z) (i : Nat) :
    z.questions[i]? =
      ((scannedQuestions (splitOnNl c.toList))[i]?).map (fun q =>
        match mapGet (scannedAnswers (splitOnNl c.toList)) (i + 1) with
        | some a => { q with correct_answer := a.answer, explanation := a.explanation }
        | none => q) := by
  obtain ⟨-, -, -, -, hq, -⟩ := parse_fields h
  rw [hq, applyLegacy_getElem?]
  rw [show 1 + i = i + 1 from by omega]

/-- Witness for C1's amended statement at `d1Both`, index 0. -/
theorem parse_legacy_fill_witness :
    parseQuizFile "quiz.md" d1Both = some zBoth ∧
    zBoth.questions[0]? =
      ((scannedQuestions (splitOnNl d1Both.toList))[0]?).map (fun q =>
        match mapGet (scannedAnswers (splitOnNl d1Both.toList)) (0 + 1) with
        | some a => { q with correct_answer := a.answer, explanation := a.explanation }
        | none => q) := by
  have h : parseQuizFile "quiz.md" d1Both = some zBoth := by decide
  exact ⟨h, parse_legacy_fill h 0⟩

/-! ## Claim C2 -/

/-- C2 counterexample: `d2NoOpts` holds one question with text but ZERO
option lines, and the parser still returns it inside the quiz: the
finalization guard tests the `options` array for truthiness, and an empty
array is truthy, so a zero-option question is not kept out of the output. -/
theorem zero_option_question_kept_cex :
    (parseQuizFile "quiz.md" d2NoOpts).map
        (fun z => z.questions.map (fun q => q.options.length)) = some [0] := by
  decide

theorem finalizeInto_text {questions : List QuizQuestion} {cur : Option QuizQuestion}
    (h : ∀ q ∈ questions, q.question ≠ "") :
    ∀ q ∈ finalizeInto questions cur, q.question ≠ "" := by
  cases cur with
  | none => exact h
  | some cq =>
    intro q hq
    simp only [finalizeInto] at hq
    split at hq
    · rename_i hcq
      rcases List.mem_append.mp hq with h1 | h1
      · exact h q h1
      · rw [List.mem_singleton.mp h1]
        exact hcq
    · exact h q hq

theorem scanLines_text : ∀ (ls : List (List Char)) (st : ScanState),
    (∀ q ∈ st.questions, q.question ≠ "") →
    ∀ q ∈ (scanLines st ls).questions, q.question ≠ "" := by
  intro ls
  induction ls with
  | nil => intro st h; exact h
  | cons l rest ih =>
    intro st h
    apply ih
    rw [step_questions]
    split
    · exact finalizeInto_text h
    · exact h

theorem scannedQuestions_text (lines : List (List Char)) :
    ∀ q ∈ scannedQuestions lines, q.question ≠ "" := by
  unfold scannedQuestions
  apply finalizeInto_text
  apply scanLines_text
  intro q hq
  simp at hq

/-- C2 amended: a question is finalized into the output (at a following
heading or at end of scan) if and only if the guard holds, and since the
`options` field is an array — truthy even when empty — the guard reduces to
non-empty question text: every question of a returned quiz has non-empty
text, while questions with zero options ARE added (see the
counterexample). -/
theorem parse_questions_have_text {p c : String} {z : ParsedQuiz}
    (h : parseQuizFile p c = some z) :
    ∀ q ∈ z.questions, q.question ≠ "" := by
  obtain ⟨-, -, -, -, hq, -⟩ := parse_fields h
  intro q hqm
  rw [hq] at hqm
  have hmem : q.question ∈ (applyLegacy (scannedAnswers (splitOnNl c.toList)) 1
      (scannedQuestions (splitOnNl c.toList))).map (fun q => q.question) :=
    List.mem_map_of_mem _ hqm
  rw [applyLegacy_map_question] at hmem
  obtain ⟨q2, hq2, he⟩ := List.mem_map.mp hmem
  rw [← he]
  exact scannedQuestions_text _ q2 hq2

/-- Witness for C2's amended statement at a concrete document. -/
theorem parse_questions_have_text_witness :
    parseQuizFile "q.md" wDoc = some wQuiz ∧ ∀ q ∈ wQuiz.questions, q.question ≠ "" := by
  have h : parseQuizFile "q.md" wDoc = some wQuiz := by decide
  exact ⟨h, parse_questions_have_text h⟩

/-! ## Claim C4 -/

/-- C4 counterexample: in the parse of `d4Mismatch` the sole question has
correct answer `D` while its only option key is `A`, yet the data-quality
filter flags nothing: the filter never compares the correct answer against
the option keys. -/
theorem mismatched_key_not_flagged_cex :
    (parseQuizFile "quiz.md" d4Mismatch).map
        (fun z => (z.questions.map (fun q => (q.correct_answer, q.options.map (fun o => o.key))),
                   (invalidQuestions z.questions).length)) = some ([("D", ["A"])], 0) := by
  decide

/-- C4 amended: at parse time a question of a returned quiz is flagged
invalid (counted in the data-quality warning) precisely when its correct
answer is empty or it has zero options — option-key membership of the
correct answer is not checked — and flagged questions remain in the returned
question list rather than being discarded. -/
theorem invalid_flag_criterion {p c : String} {z : ParsedQuiz}
    (_h : parseQuizFile p c = some z) :
    ∀ q, q ∈ invalidQuestions z.questions ↔
      (q ∈ z.questions ∧ (q.correct_answer = "" ∨ q.options.length = 0)) := by
  intro q
  simp [invalidQuestions, List.mem_filter]

/-- The parse of `d2NoOpts`. -/
def d2Quiz : ParsedQuiz :=
  { chapter_id := "quiz", title := "Quiz", description := "Test your knowledge!",
    passing_percentage := 70,
    questions := [{ id := "q1", question := "Some text", options := [],
                    correct_answer := "", explanation := "" }] }

/-- Witness for C4's amended statement at a concrete document. -/
theorem invalid_flag_criterion_witness :
    parseQuizFile "quiz.md" d2NoOpts = some d2Quiz ∧
    (∀ q, q ∈ invalidQuestions d2Quiz.questions ↔
      (q ∈ d2Quiz.questions ∧ (q.correct_answer = "" ∨ q.options.length = 0))) := by
  have h : parseQuizFile "quiz.md" d2NoOpts = some d2Quiz := by decide
  exact ⟨h, invalid_flag_criterion h⟩

/-! ## Claim C9 -/

/-- The scan-loop invariant for question identifiers: the finalized
questions carry identifiers `qid n` for a strictly increasing list of
counter values `ns`, all below (resp. not above) the current counter when a
question is (resp. is not) accumulating, and the accumulating question's
identifier is `qid` of the current counter. -/
def IdInv (st : ScanState) : Prop :=
  ∃ ns : List Nat, List.Pairwise (· < ·) ns ∧
    st.questions.map (fun q => q.id) = ns.map qid ∧
    ((st.current).map (fun q => q.id) = none → ∀ n ∈ ns, n ≤ st.questionNumber) ∧
    (∀ s, (st.current).map (fun q => q.id) = some s →
      s = qid st.questionNumber ∧ ∀ n ∈ ns, n < st.questionNumber)

theorem stepRest_IdInv {st : ScanState} {line : List Char} (h : IdInv st) :
    IdInv (stepRest st line) := by
  obtain ⟨ns, hpw, hmap, hnone, hsome⟩ := h
  refine ⟨ns, hpw, ?_, ?_, ?_⟩
  · rw [stepRest_questions]
    exact hmap
  · rw [stepRest_current_id, stepRest_questionNumber]
    exact hnone
  · intro s hs
    rw [stepRest_current_id] at hs
    rw [stepRest_questionNumber]
    exact hsome s hs

theorem headingStep_IdInv {st : ScanState} {line : List Char} {next? : Option (List Char)}
    (h : IdInv st) : IdInv (headingStep st line next?) := by
  unfold headingStep
  split
  · obtain ⟨ns, hpw, hmap, hnone, hsome⟩ := h
    cases hc : st.current with
    | none =>
      refine ⟨ns, hpw, ?_, ?_, ?_⟩
      · show (finalizeInto st.questions none).map (fun q => q.id) = ns.map qid
        exact hmap
      · intro habs
        simp at habs
      · intro s hs
        have hn : ∀ n ∈ ns, n ≤ st.questionNumber := hnone (by rw [hc]; rfl)
        have hs2 : s = "q" ++ Nat.repr (st.questionNumber + 1) := by simpa using hs.symm
        refine ⟨hs2, ?_⟩
        intro n hn2
        show n < st.questionNumber + 1
        have := hn n hn2
        omega
    | some cq =>
      obtain ⟨hid, hlt⟩ := hsome cq.id (by rw [hc]; rfl)
      by_cases hq : cq.question ≠ ""
      · refine ⟨ns ++ [st.questionNumber], ?_, ?_, ?_, ?_⟩
        · rw [List.pairwise_append]
          refine ⟨hpw, by simp, ?_⟩
          intro a ha b hb
          rw [List.mem_singleton.mp hb]
          exact hlt a ha
        · show (finalizeInto st.questions (some cq)).map (fun q => q.id) = _
          simp only [finalizeInto, if_pos hq, List.map_append, List.map_cons, List.map_nil,
            hmap, hid]
        · intro habs
          simp at habs
        · intro s hs
          have hs2 : s = "q" ++ Nat.repr (st.questionNumber + 1) := by simpa using hs.symm
          refine ⟨hs2, ?_⟩
          intro n hn2
          show n < st.questionNumber + 1
          rcases List.mem_append.mp hn2 with h1 | h1
          · have := hlt n h1
            omega
          · rw [List.mem_singleton.mp h1]
            omega
      · refine ⟨ns, hpw, ?_, ?_, ?_⟩
        · show (finalizeInto st.questions (some cq)).map (fun q => q.id) = _
          simp only [finalizeInto, if_neg hq]
          exact hmap
        · intro habs
          simp at habs
        · intro s hs
          have hs2 : s = "q" ++ Nat.repr (st.questionNumber + 1) := by simpa using hs.symm
          refine ⟨hs2, ?_⟩
          intro n hn2
          show n < st.questionNumber + 1
          have := hlt n hn2
          omega
  · exact h

theorem step_IdInv {st : ScanState} {rawLine : List Char} {next? : Option (List Char)}
    (h : IdInv st) : IdInv (step st rawLine next?) :=
  stepRest_IdInv (headingStep_IdInv h)

theorem scanLines_IdInv : ∀ (ls : List (List Char)) (st : ScanState),
    IdInv st → IdInv (scanLines st ls) := by
  intro ls
  induction ls with
  | nil => intro st h; exact h
  | cons l rest ih =>
    intro st h
    exact ih _ (step_IdInv h)

theorem scannedQuestions_ids (lines : List (List Char)) :
    ∃ ns : List Nat, List.Pairwise (· < ·) ns ∧
      (scannedQuestions lines).map (fun q => q.id) = ns.map qid := by
  have hinv : IdInv (scanLines ⟨[], none, 0, []⟩ lines) := by
    apply scanLines_IdInv
    exact ⟨[], by simp, by simp, by simp, by simp⟩
  obtain ⟨ns, hpw, hmap, hnone, hsome⟩ := hinv
  simp only [scannedQuestions]
  cases hc : (scanLines ⟨[], none, 0, []⟩ lines).current with
  | none =>
    refine ⟨ns, hpw, ?_⟩
    exact hmap
  | some cq =>
    obtain ⟨hid, hlt⟩ := hsome cq.id (by rw [hc]; rfl)
    by_cases hq : cq.question ≠ ""
    · refine ⟨ns ++ [(scanLines ⟨[], none, 0, []⟩ lines).questionNumber], ?_, ?_⟩
      · rw [List.pairwise_append]
        refine ⟨hpw, by simp, ?_⟩
        intro a ha b hb
        rw [List.mem_singleton.mp hb]
        exact hlt a ha
      · simp only [finalizeInto, if_pos hq, List.map_append, List.map_cons, List.map_nil,
          hmap, hid]
    · refine ⟨ns, hpw, ?_⟩
      simp only [finalizeInto, if_neg hq]
      exact hmap

/-- C9: in every returned quiz the question identifiers are pairwise
distinct, and they are `q` followed by the values of a strictly increasing
list of counter values (the counter increments on every heading, so numbers
may be skipped when a heading's question is dropped at finalization). -/
theorem parse_question_ids_distinct_increasing {p c : String} {z : ParsedQuiz}
    (h : parseQuizFile p c = some z) :
    (z.questions.map (fun q => q.id)).Nodup ∧
    ∃ ns : List Nat, List.Pairwise (· < ·) ns ∧
      z.questions.map (fun q => q.id) = ns.map qid := by
  obtain ⟨-, -, -, -, hq, -⟩ := parse_fields h
  have hmap : z.questions.map (fun q => q.id) =
      (scannedQuestions (splitOnNl c.toList)).map (fun q => q.id) := by
    rw [hq, applyLegacy_map_id]
  obtain ⟨ns, hpw, hids⟩ := scannedQuestions_ids (splitOnNl c.toList)
  refine ⟨?_, ns, hpw, by rw [hmap, hids]⟩
  rw [hmap, hids]
  have hnd : ns.Nodup := List.Pairwise.imp (fun hab => Nat.ne_of_lt hab) hpw
  exact hnd.map qid_injective

/-- Witness for C9 at a two-question document. -/
theorem parse_question_ids_witness :
    parseQuizFile "q.md" w9Doc = some w9Quiz ∧
    ((w9Quiz.questions.map (fun q => q.id)).Nodup ∧
      ∃ ns : List Nat, List.Pairwise (· < ·) ns ∧
        w9Quiz.questions.map (fun q => q.id) = ns.map qid) := by
  have h : parseQuizFile "q.md" w9Doc = some w9Quiz := by decide
  exact ⟨h, parse_question_ids_distinct_increasing h⟩

/-! ## Claim C8: the QuizInterface submission guard -/

/-- The component state of `QuizInterface` that the submission logic reads:
`currentQuestionIndex`, the `answers` record (a string-keyed object whose
entries are question id ↦ selected key, in insertion order), and
`isSubmitting`. -/
structure QuizState where
  currentQuestionIndex : Nat
  answers : List (String × String)
  isSubmitting : Bool
deriving DecidableEq, Repr

/-- JS object property write `{ ...prev, [questionId]: answerKey }`: replace
the value of an existing key in place, else append the new entry. -/
def recordSet (m : List (String × String)) (k v : String) : List (String × String) :=
  match m with
  | [] => [(k, v)]
  | (k2, v2) :: rest => if k2 = k then (k, v) :: rest else (k2, v2) :: recordSet rest k v

/-- The source's `handleAnswerSelect`. -/
def handleAnswerSelect (s : QuizState) (questionId answerKey : String) : QuizState :=
  { s with answers := recordSet s.answers questionId answerKey }

/-- The source's `handleNext`. -/
def handleNext (questions : List QuizQuestion) (s : QuizState) : QuizState :=
  if s.currentQuestionIndex < questions.length - 1 then
    { s with currentQuestionIndex := s.currentQuestionIndex + 1 }
  else s

/-- The source's `handlePrevious`. -/
def handlePrevious (s : QuizState) : QuizState :=
  if 0 < s.currentQuestionIndex then
    { s with currentQuestionIndex := s.currentQuestionIndex - 1 }
  else s

/-- The source's `handleRetake`: clear the answers and go back to the first
question. -/
def handleRetake (s : QuizState) : QuizState :=
  { s with currentQuestionIndex := 0, answers := [] }

/-- JS `Object.keys(answers).length`. -/
def answeredCount (s : QuizState) : Nat := s.answers.length

/-- The source's `allAnswered = answeredCount === questions.length`. -/
def allAnswered (questions : List QuizQuestion) (s : QuizState) : Prop :=
  answeredCount s = questions.length

/-- The submit button is enabled iff `!(!allAnswered || isSubmitting)`. -/
def submitEnabled (questions : List QuizQuestion) (s : QuizState) : Prop :=
  allAnswered questions s ∧ s.isSubmitting = false

/-- The `answers` part of the submission payload,
`Object.entries(answers).map(([question_id, selected_answer]) => ...)`. -/
def submissionAnswers (s : QuizState) : List (String × String) := s.answers

/-- The states the component can reach from its initial state: answer
selections are made for the currently displayed question only, and
navigation, retake and the submission flag follow the source handlers. -/
inductive Reachable (questions : List QuizQuestion) : QuizState → Prop
  | init : Reachable questions ⟨0, [], false⟩
  | select {s : QuizState} (h : Reachable questions s)
      (hlt : s.currentQuestionIndex < questions.length) (k : String) :
      Reachable questions
        (handleAnswerSelect s (questions.get ⟨s.currentQuestionIndex, hlt⟩).id k)
  | next {s : QuizState} (h : Reachable questions s) :
      Reachable questions (handleNext questions s)
  | prev {s : QuizState} (h : Reachable questions s) :
      Reachable questions (handlePrevious s)
  | retake {s : QuizState} (h : Reachable questions s) :
      Reachable questions (handleRetake s)
  | beginSubmit {s : QuizState} (h : Reachable questions s) :
      Reachable questions { s with isSubmitting := true }
  | endSubmit {s : QuizState} (h : Reachable questions s) :
      Reachable questions { s with isSubmitting := false }

theorem recordSet_keys (m : List (String × String)) (k v : String) :
    (recordSet m k v).map Prod.fst =
      if k ∈ m.map Prod.fst then m.map Prod.fst else m.map Prod.fst ++ [k] := by
  induction m with
  | nil => simp [recordSet]
  | cons p rest ih =>
    obtain ⟨k2, v2⟩ := p
    by_cases hk : k2 = k
    · subst hk
      simp [recordSet]
    · simp only [recordSet, if_neg hk, List.map_cons, ih]
      by_cases hmem : k ∈ rest.map Prod.fst
      · rw [if_pos hmem, if_pos (by simp [hmem])]
      · rw [if_neg hmem, if_neg (by simp [hmem, Ne.symm hk])]
        simp

/-- Any reachable state has pairwise-distinct answer keys, all of which are
identifiers of the quiz's questions. -/
theorem reachable_answers_valid {questions : List QuizQuestion} {s : QuizState}
    (h : Reachable questions s) :
    (s.answers.map Prod.fst).Nodup ∧
    ∀ k ∈ s.answers.map Prod.fst, k ∈ questions.map (fun q => q.id) := by
  induction h with
  | init => simp
  | select h hlt k ih =>
    obtain ⟨hnd, hsub⟩ := ih
    rename_i s2
    constructor
    · show ((recordSet s2.answers _ k).map Prod.fst).Nodup
      rw [recordSet_keys]
      split
      · exact hnd
      · rename_i hmem
        simp only [List.nodup_append, List.nodup_cons, List.nodup_nil]
        refine ⟨hnd, by simp, ?_⟩
        intro a ha
        simp only [List.mem_singleton]
        intro hx
        rw [hx] at ha
        exact hmem ha
    · show ∀ x ∈ (recordSet s2.answers _ k).map Prod.fst, _
      rw [recordSet_keys]
      split
      · exact hsub
      · intro x hx
        rcases List.mem_append.mp hx with h1 | h1
        · exact hsub x h1
        · rw [List.mem_singleton.mp h1]
          exact List.mem_map_of_mem (fun q => q.id) (questions.get_mem _ _)
  | next h ih =>
    unfold handleNext
    split
    · exact ih
    · exact ih
  | prev h ih =>
    unfold handlePrevious
    split
    · exact ih
    · exact ih
  | retake h ih => simp [handleRetake]
  | beginSubmit h ih => exact ih
  | endSubmit h ih => exact ih

/-- C8: quiz submission is gated on completeness: in any reachable component
state in which the submit button is enabled, the answer count equals the
question count, and (the question identifiers being distinct, as the parser
guarantees) the submission payload contains an answer entry for every one of
the quiz's questions — no submission can be issued while any question is
unanswered. -/
theorem submit_requires_all_answered {questions : List QuizQuestion} {s : QuizState}
    (hids : (questions.map (fun q => q.id)).Nodup)
    (hr : Reachable questions s)
    (hen : submitEnabled questions s) :
    answeredCount s = questions.length ∧
    ∀ q ∈ questions, ∃ k, (q.id, k) ∈ submissionAnswers s := by
  obtain ⟨hnd, hsub⟩ := reachable_answers_valid hr
  obtain ⟨hall, -⟩ := hen
  refine ⟨hall, ?_⟩
  have hkeys : (s.answers.map Prod.fst).toFinset = (questions.map (fun q => q.id)).toFinset := by
    apply Finset.eq_of_subset_of_card_le
    · intro x hx
      rw [List.mem_toFinset] at hx ⊢
      exact hsub x hx
    · rw [List.toFinset_card_of_nodup hids, List.toFinset_card_of_nodup hnd]
      simp only [List.length_map]
      rw [← hall]
      rfl
  intro q hq
  have hmem : q.id ∈ s.answers.map Prod.fst := by
    rw [← List.mem_toFinset, hkeys, List.mem_toFinset]
    exact List.mem_map_of_mem (fun q => q.id) hq
  obtain ⟨p, hp, hfst⟩ := List.mem_map.mp hmem
  exact ⟨p.2, by rw [← hfst]; exact hp⟩

/-- A one-question quiz used by the witness. -/
def w8Questions : List QuizQuestion :=
  [{ id := "q1", question := "X", options := [{ key := "A", text := "a" }],
     correct_answer := "A", explanation := "" }]

/-- Witness for C8: after answering the sole question, submission is enabled
and the payload covers every question. -/
theorem submit_requires_all_answered_witness :
    answeredCount ⟨0, [("q1", "A")], false⟩ = w8Questions.length ∧
    ∀ q ∈ w8Questions, ∃ k, (q.id, k) ∈ submissionAnswers ⟨0, [("q1", "A")], false⟩ := by
  have hr : Reachable w8Questions ⟨0, [("q1", "A")], false⟩ :=
    Reachable.select Reachable.init (by decide) "A"
  exact submit_requires_all_answered (by decide) hr ⟨rfl, rfl⟩

end QuizApp
